import Mathlib

/-!
Shallow embedding of `coredaq_py_api.py` (class `CoreDAQ`, v3.1), the
high-level host driver for the coreDAQ instrument.  Python floats are
modelled as exact rationals (`ℚ`); the only genuinely real-valued step,
`10.0 ** y` in the LOG lookup-table conversion, is modelled with `Real.rpow`
on top of a rational log-domain core.  Fallible operations return
`Except Err`; device replies and wire payloads are explicit parameters.
-/

namespace CoreDAQ

/-- Frontend variant, detected once at session init (`HEAD_TYPE?`). -/
inductive Frontend
  | linear
  | log
deriving DecidableEq, Repr

/-- Error taxonomy of the driver (spec §7).  In the Python source every one
of these is a `CoreDAQError` / `ValueError` / `TimeoutError` with a message;
here they are distinguished constructors.  `featureUnsupported` records the
feature name, the required frontend and the actual one, mirroring the
message built by `_require_frontend` (lines 185-189). -/
inductive Err
  | deviceTimeout
  | protocolError
  | featureUnsupported (feature : String) (expected actual : Frontend)
  | invalidArgument
  | invalidCalibration
  | lutNotLoaded
  | shortRead
  | decodeMismatch
deriving DecidableEq, Repr

/-- `ADC_LSB_VOLTS = (2.0 * ADC_VFS_VOLTS) / (2 ** ADC_BITS)` with
`ADC_VFS_VOLTS = 5.0`, `ADC_BITS = 16` (lines 25-28): one ADC code step in
volts. -/
def ADC_LSB_VOLTS : ℚ := (2 * 5) / 2 ^ 16

/-- One ADC code step in millivolts: `self.ADC_LSB_VOLTS * 1e3`
(lines 577, 659, 847, 899). -/
def lsb_mV : ℚ := ADC_LSB_VOLTS * 1000

theorem ADC_LSB_VOLTS_eq : ADC_LSB_VOLTS = 5 / 32768 := by
  norm_num [ADC_LSB_VOLTS]

theorem lsb_mV_eq : lsb_mV = 625 / 4096 := by
  norm_num [lsb_mV, ADC_LSB_VOLTS]

/-- Round-half-to-even on an exact rational: the semantics of Python's
builtin `round(x)` (ties go to the even integer; Mathlib's `round` rounds
ties up, so the tie case is adjusted explicitly). -/
def rhe (q : ℚ) : ℤ :=
  if Int.fract q = 1 / 2 then
    (if 2 ∣ ⌊q⌋ then ⌊q⌋ else ⌊q⌋ + 1)
  else round q

/-- Python `round(x, d)` for `d` decimal places: scale by `10^d`,
round half-to-even, scale back. -/
def roundTo (q : ℚ) (d : ℕ) : ℚ := (rhe (q * 10 ^ d) : ℚ) / 10 ^ d

theorem rhe_bounds (q : ℚ) : q - 1 / 2 ≤ (rhe q : ℚ) ∧ (rhe q : ℚ) ≤ q + 1 / 2 := by
  unfold rhe
  split
  · next htie =>
    have hfl : (⌊q⌋ : ℚ) = q - 1 / 2 := by
      have := Int.fract_add_floor q
      rw [htie] at this
      linarith
    split
    · constructor <;> linarith [hfl]
    · constructor <;> (push_cast; linarith [hfl])
  · have h := abs_sub_round q
    rw [abs_sub_le_iff] at h
    constructor <;> linarith [h.1, h.2]

theorem rhe_mono {x y : ℚ} (h : x ≤ y) : rhe x ≤ rhe y := by
  by_contra hlt
  push_neg at hlt
  have h1 : rhe y + 1 ≤ rhe x := hlt
  have hx := (rhe_bounds x).2
  have hy := (rhe_bounds y).1
  have hcast : (rhe y : ℚ) + 1 ≤ (rhe x : ℚ) := by exact_mod_cast h1
  have : y ≤ x := by linarith
  have hxy : x = y := le_antisymm h this
  subst hxy
  omega

theorem rhe_intCast (n : ℤ) : rhe (n : ℚ) = n := by
  unfold rhe
  rw [Int.fract_intCast]
  norm_num

theorem roundTo_mono {x y : ℚ} (d : ℕ) (h : x ≤ y) : roundTo x d ≤ roundTo y d := by
  unfold roundTo
  have hp : (0 : ℚ) < 10 ^ d := by positivity
  have h2 : ((rhe (x * 10 ^ d) : ℚ)) ≤ (rhe (y * 10 ^ d) : ℚ) := by
    exact_mod_cast rhe_mono (mul_le_mul_of_nonneg_right h (le_of_lt hp))
  exact (div_le_div_iff_of_pos_right hp).mpr h2

theorem roundTo_one (d : ℕ) : roundTo 1 d = 1 := by
  unfold roundTo
  have : (1 : ℚ) * 10 ^ d = ((10 ^ d : ℤ) : ℚ) := by push_cast; ring
  rw [this, rhe_intCast]
  have hp : (0 : ℚ) < 10 ^ d := by positivity
  push_cast
  field_simp

/-- Decimal precision used by the LINEAR watt conversion:
`decimals = 0 if power_lsb <= 0 else max(0, min(12, round(-math.log10(power_lsb))))`
(lines 678-679 and 911-912).

For a positive rational `p`, `clamp(round(-log10 p), 0, 12)` is computed
exactly: `round(-log10 p) = k` iff `10^(-k-1/2) < p ≤ 10^(1/2-k)` iff
`10^(2k) * p^2 ≤ 10 < 10^(2k+2) * p^2` (a tie `p = 10^(half-integer)` is
impossible for rational `p`), so the clamped value is the greatest
`d ≤ 12` with `10^(2d) * p^2 ≤ 10` (and `0` when no such `d` exists). -/
def decimalsOf (p : ℚ) : ℕ :=
  if p ≤ 0 then 0
  else ((List.range 13).filter (fun d => 10 ^ (2 * d) * p ^ 2 ≤ 10)).foldr max 0

/-! ### LOG lookup-table interpolation (`voltage_to_power_W`, lines 479-505) -/

/-- `bisect.bisect_left(xs, x)`: for an ascending list, the leftmost index
`j` with `xs[j] ≥ x`, i.e. the number of leading elements `< x`. -/
def bisectLeft (xs : List ℚ) (v : ℚ) : ℕ := (xs.takeWhile (fun a => a < v)).length

/-- Log-domain core of `interp_one` (lines 487-501): the value `y` whose
power `10.0 ** y` the function returns.  Out-of-range indices use `getD`
defaults; under the loaded-LUT invariants every index below is in range. -/
def interpOne (xs ys : List ℚ) (v : ℚ) : ℚ :=
  if v ≤ xs.headD 0 then ys.headD 0
  else if xs.getLastD 0 ≤ v then ys.getLastD 0
  else
    let j := bisectLeft xs v
    let x0 := xs.getD (j - 1) 0
    let x1 := xs.getD j 0
    let y0 := ys.getD (j - 1) 0
    let y1 := ys.getD j 0
    if x1 = x0 then y0 else y0 + (v - x0) / (x1 - x0) * (y1 - y0)

/-- `voltage_to_power_W` on a single voltage: every branch of `interp_one`
returns `10.0 ** y` for its log-domain value `y`, so the function is
`10 ^ interpOne` (real exponentiation). -/
noncomputable def interpPowerW (xs ys : List ℚ) (v : ℚ) : ℝ :=
  (10 : ℝ) ^ ((interpOne xs ys v : ℚ) : ℝ)

/-- Modelled from the spec's words (§4.3 Interpolation): "locate the
bracketing knot pair by ascending-voltage search" — scan consecutive knot
pairs from the left and take the first whose right voltage is ≥ v. -/
def specScanPair : List (ℚ × ℚ) → ℚ → (ℚ × ℚ) × (ℚ × ℚ)
  | p :: q :: rest, v => if v ≤ q.1 then (p, q) else specScanPair (q :: rest) v
  | _, _ => ((0, 0), (0, 0))

/-- Modelled from the spec's words (§4.3): clamp below the first knot and
above the last knot, otherwise linear interpolation in voltage against
log10(power) over the bracketing pair (log domain; the reference power is
`10 ^` this value). -/
def specInterpLog (xs ys : List ℚ) (v : ℚ) : ℚ :=
  if v ≤ xs.headD 0 then ys.headD 0
  else if xs.getLastD 0 ≤ v then ys.getLastD 0
  else
    let pr := specScanPair (xs.zip ys) v
    pr.1.2 + (v - pr.1.1) / (pr.2.1 - pr.1.1) * (pr.2.2 - pr.1.2)

/-- Reference power from the spec's interpolation. -/
noncomputable def specInterpPowerW (xs ys : List ℚ) (v : ℚ) : ℝ :=
  (10 : ℝ) ^ ((specInterpLog xs ys v : ℚ) : ℝ)

theorem getLastD_irrel (l : List ℚ) (hl : l ≠ []) (a b : ℚ) :
    l.getLastD a = l.getLastD b := by
  rw [List.getLastD_eq_getLast?, List.getLastD_eq_getLast?]
  obtain ⟨y, hy⟩ := Option.isSome_iff_exists.mp (List.getLast?_isSome.mpr hl)
  rw [hy]
  rfl

theorem getLastD_eq_getD (l : List ℚ) (hl : l ≠ []) :
    l.getLastD 0 = l.getD (l.length - 1) 0 := by
  induction l with
  | nil => exact absurd rfl hl
  | cons a t ih =>
    cases t with
    | nil => rfl
    | cons b t' =>
      have hne : (b :: t') ≠ ([] : List ℚ) := by simp
      calc (a :: b :: t').getLastD 0 = (b :: t').getLastD a := rfl
        _ = (b :: t').getLastD 0 := getLastD_irrel _ hne _ _
        _ = (b :: t').getD ((b :: t').length - 1) 0 := ih hne
        _ = (a :: b :: t').getD ((a :: b :: t').length - 1) 0 := by
              simp [List.getD_cons_succ]

theorem sorted_getD_lt (l : List ℚ) (hs : l.Sorted (· < ·)) {i j : ℕ}
    (hij : i < j) (hj : j < l.length) : l.getD i 0 < l.getD j 0 := by
  have hi : i < l.length := lt_trans hij hj
  rw [List.getD_eq_getElem l 0 hi, List.getD_eq_getElem l 0 hj]
  exact List.Sorted.get_strictMono hs (show (⟨i, hi⟩ : Fin l.length) < ⟨j, hj⟩ from hij)

theorem length_takeWhile_eq (p : ℚ → Bool) :
    ∀ (l : List ℚ) (k : ℕ), k < l.length →
    (∀ i, i < k → p (l.getD i 0) = true) → p (l.getD k 0) = false →
    (l.takeWhile p).length = k := by
  intro l
  induction l with
  | nil => intro k hk; simp at hk
  | cons a t ih =>
    intro k hk hall hlast
    cases k with
    | zero =>
      have ha : p a = false := by simpa using hlast
      simp [List.takeWhile_cons, ha]
    | succ k =>
      have ha : p a = true := by simpa using hall 0 (Nat.succ_pos k)
      have h1 : k < t.length := by simpa using hk
      have h2 : ∀ i, i < k → p (t.getD i 0) = true := by
        intro i hi
        simpa [List.getD_cons_succ] using hall (i + 1) (by omega)
      have h3 : p (t.getD k 0) = false := by simpa [List.getD_cons_succ] using hlast
      simp [List.takeWhile_cons, ha, ih k h1 h2 h3]

theorem bisectLeft_cons_lt (x : ℚ) (l : List ℚ) (v : ℚ) (hx : x < v) :
    bisectLeft (x :: l) v = bisectLeft l v + 1 := by
  simp [bisectLeft, List.takeWhile_cons, hx]

theorem headD_eq_getD (l : List ℚ) : l.headD 0 = l.getD 0 0 := by
  cases l <;> rfl

theorem interpOne_knot (xs ys : List ℚ) (hs : xs.Sorted (· < ·))
    (hlen : xs.length = ys.length) (k : ℕ) (hk : k < xs.length) :
    interpOne xs ys (xs.getD k 0) = ys.getD k 0 := by
  have hxsne : xs ≠ [] := by intro h; rw [h] at hk; simp at hk
  have hysne : ys ≠ [] := by
    intro h; rw [h] at hlen; simp only [List.length_nil] at hlen; omega
  rcases Nat.eq_zero_or_pos k with hk0 | hkpos
  · subst hk0
    rw [interpOne, if_pos (le_of_eq (headD_eq_getD xs).symm)]
    exact headD_eq_getD ys
  · have hlt0 : xs.getD 0 0 < xs.getD k 0 := sorted_getD_lt xs hs hkpos hk
    have hg1 : ¬ (xs.getD k 0 ≤ xs.headD 0) := by
      rw [headD_eq_getD]; exact not_le.mpr hlt0
    by_cases hklast : k = xs.length - 1
    · have hle : xs.getLastD 0 ≤ xs.getD k 0 := by
        rw [getLastD_eq_getD xs hxsne, hklast]
      rw [interpOne, if_neg hg1, if_pos hle]
      rw [getLastD_eq_getD ys hysne, ← hlen, ← hklast]
    · have hklt : k < xs.length - 1 := by omega
      have hg2 : ¬ (xs.getLastD 0 ≤ xs.getD k 0) := by
        rw [getLastD_eq_getD xs hxsne]
        exact not_le.mpr (sorted_getD_lt xs hs hklt (by omega))
      have hj : bisectLeft xs (xs.getD k 0) = k := by
        apply length_takeWhile_eq _ xs k hk
        · intro i hi
          simpa using sorted_getD_lt xs hs hi hk
        · simp
      have hx0 : xs.getD (k - 1) 0 < xs.getD k 0 :=
        sorted_getD_lt xs hs (by omega) hk
      rw [interpOne, if_neg hg1, if_neg hg2]
      simp only [hj, if_neg hx0.ne']
      rw [div_self (ne_of_gt (sub_pos.mpr hx0))]
      ring

theorem interpOne_eq_spec (xs : List ℚ) :
    ∀ (ys : List ℚ), xs.Sorted (· < ·) → xs.length = ys.length →
    ∀ v : ℚ, xs.headD 0 < v → v < xs.getLastD 0 →
    interpOne xs ys v = specInterpLog xs ys v := by
  induction xs with
  | nil =>
    intro ys _ _ v h1 h2
    simp at h1 h2
    linarith
  | cons x0 tl ih =>
    intro ys hs hlen v hhead hlast
    cases tl with
    | nil =>
      simp at hhead hlast
      linarith
    | cons x1 rest =>
      cases ys with
      | nil => simp at hlen
      | cons y0 yt =>
        cases yt with
        | nil => simp at hlen
        | cons y1 ys2 =>
          obtain ⟨hx0all, hs'⟩ := List.sorted_cons.mp hs
          have hx0x1 : x0 < x1 := hx0all x1 (by simp)
          have hx0v : x0 < v := by simpa using hhead
          have hlast' : v < (x1 :: rest).getLastD 0 := by
            have : (x0 :: x1 :: rest).getLastD 0 = (x1 :: rest).getLastD 0 := by
              calc (x0 :: x1 :: rest).getLastD 0 = (x1 :: rest).getLastD x0 := rfl
                _ = (x1 :: rest).getLastD 0 := getLastD_irrel _ (by simp) _ _
            rw [← this]; exact hlast
          have hg1 : ¬ (v ≤ (x0 :: x1 :: rest).headD 0) := by
            simpa using not_le.mpr hx0v
          have hg2 : ¬ ((x0 :: x1 :: rest).getLastD 0 ≤ v) := not_le.mpr hlast
          by_cases hvx1 : v ≤ x1
          · -- bracketed by the first knot pair
            have hj : bisectLeft (x0 :: x1 :: rest) v = 1 := by
              rw [bisectLeft_cons_lt x0 _ v hx0v]
              simp [bisectLeft, List.takeWhile_cons, not_lt.mpr hvx1]
            rw [interpOne, if_neg hg1, if_neg hg2,
                specInterpLog, if_neg hg1, if_neg hg2]
            simp only [hj, List.zip_cons_cons, specScanPair, if_pos hvx1]
            simp [if_neg hx0x1.ne']
          · have hx1v : x1 < v := not_le.mp hvx1
            cases rest with
            | nil =>
              simp at hlast'
              linarith
            | cons x2 rest' =>
              have hcode : interpOne (x0 :: x1 :: x2 :: rest') (y0 :: y1 :: ys2) v
                  = interpOne (x1 :: x2 :: rest') (y1 :: ys2) v := by
                have hg1t : ¬ (v ≤ (x1 :: x2 :: rest').headD 0) := by
                  simpa using not_le.mpr hx1v
                have hg2t : ¬ ((x1 :: x2 :: rest').getLastD 0 ≤ v) := not_le.mpr hlast'
                rw [interpOne, if_neg hg1, if_neg hg2,
                    interpOne, if_neg hg1t, if_neg hg2t]
                have hjbig : bisectLeft (x0 :: x1 :: x2 :: rest') v
                    = bisectLeft (x2 :: rest') v + 1 + 1 := by
                  rw [bisectLeft_cons_lt x0 _ v hx0v, bisectLeft_cons_lt x1 _ v hx1v]
                have hjtl : bisectLeft (x1 :: x2 :: rest') v
                    = bisectLeft (x2 :: rest') v + 1 := bisectLeft_cons_lt x1 _ v hx1v
                simp only [hjbig, hjtl, Nat.add_sub_cancel, List.getD_cons_succ]
              have hspec : specInterpLog (x0 :: x1 :: x2 :: rest') (y0 :: y1 :: ys2) v
                  = specInterpLog (x1 :: x2 :: rest') (y1 :: ys2) v := by
                have hg1t : ¬ (v ≤ (x1 :: x2 :: rest').headD 0) := by
                  simpa using not_le.mpr hx1v
                have hg2t : ¬ ((x1 :: x2 :: rest').getLastD 0 ≤ v) := not_le.mpr hlast'
                rw [specInterpLog, if_neg hg1, if_neg hg2,
                    specInterpLog, if_neg hg1t, if_neg hg2t]
                simp only [List.zip_cons_cons, specScanPair, if_neg hvx1, List.zip,
                  List.zipWith_cons_cons]
              rw [hcode, hspec]
              exact ih (y1 :: ys2) hs' (by simpa using hlen) v (by simpa using hx1v) hlast'

/-- C1: For every loaded Log lookup table (non-empty, voltages ascending) and
every input voltage `v`, `voltage_to_power_W(v)` equals the reference
log-linear interpolation (clamp to first/last knot outside the table, else
`10^(y0 + (v−x0)/(x1−x0)·(y1−y0))` over the bracketing knot pair found by
ascending-voltage search); querying at an exact table voltage returns that
knot's power value; and for voltages `[0,1,2]` with log-powers `[-9,-6,-3]`
the input `0.5` yields `10^(-7.5)` W. -/
theorem voltage_to_power_W_matches_reference (xs ys : List ℚ) (hne : xs ≠ [])
    (hlen : xs.length = ys.length) (hs : xs.Sorted (· < ·)) :
    (∀ v : ℚ, interpPowerW xs ys v = specInterpPowerW xs ys v) ∧
    (∀ k, k < xs.length →
      interpPowerW xs ys (xs.getD k 0) = (10 : ℝ) ^ ((ys.getD k 0 : ℚ) : ℝ)) ∧
    interpPowerW [0, 1, 2] [-9, -6, -3] (1 / 2) = (10 : ℝ) ^ (-(15 / 2) : ℝ) := by
  refine ⟨?_, ?_, ?_⟩
  · intro v
    have key : interpOne xs ys v = specInterpLog xs ys v := by
      by_cases h1 : v ≤ xs.headD 0
      · rw [interpOne, if_pos h1, specInterpLog, if_pos h1]
      · by_cases h2 : xs.getLastD 0 ≤ v
        · rw [interpOne, if_neg h1, if_pos h2, specInterpLog, if_neg h1, if_pos h2]
        · exact interpOne_eq_spec xs ys hs hlen v (not_le.mp h1) (not_le.mp h2)
    unfold interpPowerW specInterpPowerW
    exact congrArg (fun q : ℚ => (10 : ℝ) ^ (q : ℝ)) key
  · intro k hk
    unfold interpPowerW
    exact congrArg (fun q : ℚ => (10 : ℝ) ^ (q : ℝ)) (interpOne_knot xs ys hs hlen k hk)
  · have h : interpOne [0, 1, 2] [-9, -6, -3] (1 / 2 : ℚ) = -(15 / 2) := by
      norm_num [interpOne, bisectLeft, List.takeWhile_cons, List.getLastD, List.getD,
        List.getD_cons_succ, List.getD_cons_zero]
    unfold interpPowerW
    rw [h]
    norm_num

theorem voltage_to_power_W_matches_reference_witness :
    interpPowerW [0, 1, 2] [-9, -6, -3] (1 / 2) = (10 : ℝ) ^ (-(15 / 2) : ℝ) :=
  (voltage_to_power_W_matches_reference [0, 1, 2] [-9, -6, -3]
    (by simp) rfl (by decide)).2.2

/-! ### LINEAR watt conversion (`snapshot_W` lines 662-684, `transfer_frames_W`
lines 902-925; the two sites carry out the identical per-sample computation) -/

/-- `self._mv_zero_threshold = 0.0` (line 81).  No method of the class ever
reassigns it, so every session carries threshold 0. -/
def init_mv_zero_threshold : ℚ := 0

/-- The watt value computed for one corrected millivolt sample `m` on the
LINEAR frontend, given a nonzero slope:
`power_lsb = adc_mv_per_lsb / slope`; `decimals` per `decimalsOf`;
`p_w = (mv_corr - intercept_mV) / slope`; clamp below 0; `round(p_w, decimals)`. -/
def convert_value_W (slope intercept m : ℚ) : ℚ :=
  roundTo (if (m - intercept) / slope < 0 then 0 else (m - intercept) / slope)
    (decimalsOf (lsb_mV / slope))

/-- Per-sample LINEAR conversion including the guards: zero slope raises
`InvalidCalibration`; `abs(mv_corr) < self._mv_zero_threshold` short-circuits
to 0 W (dead with the init threshold 0). -/
def convert_sample_W (slope intercept thresh m : ℚ) : Except Err ℚ :=
  if slope = 0 then .error .invalidCalibration
  else if |m| < thresh then .ok 0
  else .ok (convert_value_W slope intercept m)

/-- Modelled from the claim's words: `round(max(0, (m − i)/s), d)` with
`d = clamp(round(−log10(lsb_power_watts)), 0, 12)`, failing with
`InvalidCalibration` when the slope is zero. -/
def spec_convert_W (slope intercept m : ℚ) : Except Err ℚ :=
  if slope = 0 then .error .invalidCalibration
  else .ok (roundTo (max 0 ((m - intercept) / slope)) (decimalsOf (lsb_mV / slope)))

/-- C2: On the Linear frontend, with the session's (constant) near-zero
threshold, the per-sample conversion of `snapshot_W` / `transfer_frames_W`
fails with `InvalidCalibration` for slope 0 and otherwise returns
`round(max(0, (m − i)/s), d)` watts with the LSB-derived decimal count; in
particular slope 100 mV/W, intercept 5 mV, corrected reading 105 mV gives
exactly 1.0 W. -/
theorem snapshot_transfer_W_linear_formula :
    (∀ slope intercept m : ℚ,
      convert_sample_W slope intercept init_mv_zero_threshold m
        = spec_convert_W slope intercept m) ∧
    convert_sample_W 0 5 init_mv_zero_threshold 105 = .error .invalidCalibration ∧
    convert_sample_W 100 5 init_mv_zero_threshold 105 = .ok 1 := by
  refine ⟨?_, ?_, ?_⟩
  · intro s i m
    unfold convert_sample_W spec_convert_W convert_value_W init_mv_zero_threshold
    by_cases hs : s = 0
    · simp [hs]
    · rw [if_neg hs, if_neg hs, if_neg (abs_nonneg m).not_lt]
      rcases le_or_lt 0 ((m - i) / s) with h | h
      · rw [if_neg (not_lt.mpr h), max_eq_right h]
      · rw [if_pos h, max_eq_left h.le]
  · simp [convert_sample_W]
  · unfold convert_sample_W convert_value_W init_mv_zero_threshold
    rw [if_neg (by norm_num : (100 : ℚ) ≠ 0), if_neg (abs_nonneg (105 : ℚ)).not_lt]
    norm_num [roundTo_one]

/-- `snapshot_W`/`transfer_frames_W` as a function of a raw ADC code: the
corrected millivolt value is `(raw − zero) * adc_mv_per_lsb` (active zero
subtracted by `_apply_linear_zero_ch` / `transfer_frames_mV`), then the
per-sample LINEAR conversion. -/
def linear_power_from_raw (slope intercept : ℚ) (zero raw : ℤ) : Except Err ℚ :=
  convert_sample_W slope intercept init_mv_zero_threshold
    (((raw - zero : ℤ) : ℚ) * lsb_mV)

/-- C9 counterexample: the claim quantifies over every nonzero slope, but
for the (nonzero) slope −1 mV/W the conversion is not monotonic
non-decreasing in the raw code: raw −6554 (≤ 0) converts to 1000 W while
raw 0 converts to 0 W. -/
theorem linear_monotone_counterexample :
    (-1 : ℚ) ≠ 0 ∧ (-6554 : ℤ) ≤ 0 ∧
    linear_power_from_raw (-1) 0 0 (-6554) = .ok 1000 ∧
    linear_power_from_raw (-1) 0 0 0 = .ok 0 ∧
    ¬ ((1000 : ℚ) ≤ 0) := by
  refine ⟨by norm_num, by norm_num, ?_, ?_, by norm_num⟩
  · unfold linear_power_from_raw convert_sample_W convert_value_W init_mv_zero_threshold
    rw [if_neg (by norm_num : (-1 : ℚ) ≠ 0), if_neg (abs_nonneg _).not_lt]
    have hd : decimalsOf (lsb_mV / (-1)) = 0 := by
      unfold decimalsOf
      rw [if_pos]
      rw [lsb_mV_eq]
      norm_num
    have hm : (((-6554 - 0 : ℤ) : ℚ) * lsb_mV - 0) / (-1) = 2048125 / 2048 := by
      rw [lsb_mV_eq]; norm_num
    rw [hd, hm, if_neg (by norm_num : ¬ ((2048125 : ℚ) / 2048 < 0))]
    have hfl : ⌊(2048125 : ℚ) / 2048⌋ = 1000 := by
      rw [Int.floor_eq_iff]
      norm_num
    have hfr : Int.fract ((2048125 : ℚ) / 2048) ≠ 1 / 2 := by
      unfold Int.fract
      rw [hfl]
      norm_num
    have h1 : ((2048125 : ℚ) / 2048) * 10 ^ (0 : ℕ) = 2048125 / 2048 := by norm_num
    unfold roundTo
    rw [h1]
    unfold rhe
    rw [if_neg hfr, round_eq]
    have h2 : ⌊(2048125 : ℚ) / 2048 + 1 / 2⌋ = 1000 := by
      rw [Int.floor_eq_iff]
      norm_num
    rw [h2]
    norm_num
  · unfold linear_power_from_raw convert_sample_W convert_value_W init_mv_zero_threshold
    rw [if_neg (by norm_num : (-1 : ℚ) ≠ 0), if_neg (abs_nonneg _).not_lt]
    have hm : (((0 - 0 : ℤ) : ℚ) * lsb_mV - 0) / (-1) = 0 := by
      rw [lsb_mV_eq]; norm_num
    rw [hm, if_neg (lt_irrefl (0 : ℚ))]
    unfold roundTo rhe
    norm_num

/-- C9 amended: for every channel/gain pair whose calibration slope is
strictly positive, the LINEAR conversion from zero-subtracted raw code to
watts (negative clamp and LSB-derived rounding included) is monotonic
non-decreasing in the raw code; for merely nonzero (negative) slope it can
decrease (see the counterexample). -/
theorem linear_conversion_monotone (slope intercept : ℚ) (zero : ℤ)
    (hs : 0 < slope) (r1 r2 : ℤ) (h12 : r1 ≤ r2) :
    linear_power_from_raw slope intercept zero r1
      = .ok (convert_value_W slope intercept (((r1 - zero : ℤ) : ℚ) * lsb_mV)) ∧
    convert_value_W slope intercept (((r1 - zero : ℤ) : ℚ) * lsb_mV)
      ≤ convert_value_W slope intercept (((r2 - zero : ℤ) : ℚ) * lsb_mV) := by
  constructor
  · unfold linear_power_from_raw convert_sample_W init_mv_zero_threshold
    rw [if_neg (ne_of_gt hs), if_neg (abs_nonneg _).not_lt]
  · have hlsb : (0 : ℚ) < lsb_mV := by rw [lsb_mV_eq]; norm_num
    have hm : (((r1 - zero : ℤ) : ℚ)) * lsb_mV ≤ (((r2 - zero : ℤ) : ℚ)) * lsb_mV := by
      apply mul_le_mul_of_nonneg_right _ hlsb.le
      exact_mod_cast sub_le_sub_right h12 zero
    unfold convert_value_W
    apply roundTo_mono
    have hp : ((((r1 - zero : ℤ) : ℚ) * lsb_mV) - intercept) / slope
        ≤ ((((r2 - zero : ℤ) : ℚ) * lsb_mV) - intercept) / slope :=
      (div_le_div_iff_of_pos_right hs).mpr (sub_le_sub_right hm intercept)
    split_ifs with h1 h2 <;> linarith

theorem linear_conversion_monotone_witness :
    (0 : ℚ) < 100 ∧ (0 : ℤ) ≤ 655 ∧
    (linear_power_from_raw 100 5 0 0
        = .ok (convert_value_W 100 5 (((0 - 0 : ℤ) : ℚ) * lsb_mV)) ∧
      convert_value_W 100 5 (((0 - 0 : ℤ) : ℚ) * lsb_mV)
        ≤ convert_value_W 100 5 (((655 - 0 : ℤ) : ℚ) * lsb_mV)) :=
  ⟨by norm_num, by norm_num, linear_conversion_monotone 100 5 0 (by norm_num) 0 655 (by norm_num)⟩

/-! ### Session state and the LOG deadband -/

/-- The mutable per-session state set up by `__init__` (lines 63-105) that
the conversion pipeline reads: detected frontend, 4×8 LINEAR calibration
tables, the near-zero millivolt threshold, factory and active zero vectors,
the LOG deadband, and the LOG LUT (voltage and log10-power columns). -/
structure Session where
  frontend : Frontend
  cal_slope : Fin 4 → Fin 8 → ℚ
  cal_intercept : Fin 4 → Fin 8 → ℚ
  mv_zero_threshold : ℚ
  factory_zero_adc : Fin 4 → ℤ
  linear_zero_adc : Fin 4 → ℤ
  log_deadband_mV : ℚ
  loglut : Option (List ℚ × List ℚ)

/-- Session state right after `__init__` for a given detected frontend and
loaded calibration/zero data: `_mv_zero_threshold = 0.0` (line 81) and
`_log_deadband_mV = 300.0` (line 97) are hard-coded defaults; factory zeros
are loaded (and copied to the active zeros) only on the LINEAR frontend
(lines 87-88, 104-105, 257-258). -/
def init_session (fe : Frontend) (slope intercept : Fin 4 → Fin 8 → ℚ)
    (fz : Fin 4 → ℤ) (lut : Option (List ℚ × List ℚ)) : Session :=
  { frontend := fe
    cal_slope := slope
    cal_intercept := intercept
    mv_zero_threshold := 0
    factory_zero_adc := fun i => if fe = .linear then fz i else 0
    linear_zero_adc := fun i => if fe = .linear then fz i else 0
    log_deadband_mV := 300
    loglut := lut }

/-- `get_log_deadband_mV` (lines 349-350). -/
def get_log_deadband_mV (S : Session) : ℚ := S.log_deadband_mV

/-- `set_log_deadband_mV` (lines 339-347): rejects negative values. -/
def set_log_deadband_mV (S : Session) (db : ℚ) : Except Err Session :=
  if db < 0 then .error .invalidArgument else .ok { S with log_deadband_mV := db }

/-! ### LOG watt conversion with deadband -/

/-- One channel of the LOG branch of `snapshot_W` (lines 613-626), given the
effective deadband `db` (`log_deadband_mV` override if provided, else the
session value, line 617): if `db > 0` and `|mv_corr| < db` the output is
0 W without touching the LUT; otherwise `voltage_to_power_W(mv/1000)`,
which itself raises when the LUT is not loaded (lines 481-482). -/
noncomputable def log_snapshot_sample (lut : Option (List ℚ × List ℚ))
    (db m : ℚ) : Except Err ℝ :=
  if 0 < db ∧ |m| < db then .ok 0
  else
    match lut with
    | none => .error .lutNotLoaded
    | some (xs, ys) => .ok (interpPowerW xs ys (m / 1000))

/-- One sample of the LOG branch of `transfer_frames_W` (lines 929-942)
composed with `transfer_frames_volts` → `transfer_frames_mV` (lines 858-872):
the raw millivolt value is first zeroed by the SESSION deadband inside
`transfer_frames_mV` (the volt stage passes no override), divided by 1000
into volts, and the watt stage recomputes `mv_equiv = v * 1e3` (exact in ℚ)
and re-checks its own effective deadband (override if provided). -/
noncomputable def log_transfer_sample (lut : Option (List ℚ × List ℚ))
    (sessionDb : ℚ) (dbOverride : Option ℚ) (m : ℚ) : Except Err ℝ :=
  let m1 := if 0 < sessionDb ∧ |m| < sessionDb then (0 : ℚ) else m
  let db := dbOverride.getD sessionDb
  if 0 < db ∧ |m1| < db then .ok 0
  else
    match lut with
    | none => .error .lutNotLoaded
    | some (xs, ys) => .ok (interpPowerW xs ys (m1 / 1000))

/-- C3: On the Log frontend, for every active (positive) effective deadband
and every corrected millivolt sample `m` with `|m| < deadband`, both the
snapshot path and the transfer path output exactly 0 W, for every
lookup-table state including an unloaded one — the interpolation is never
invoked on such a sample. -/
theorem log_deadband_forces_zero (lut : Option (List ℚ × List ℚ))
    (sessionDb : ℚ) (dbOverride : Option ℚ) (m : ℚ)
    (hd : 0 < dbOverride.getD sessionDb)
    (hm : |m| < dbOverride.getD sessionDb) :
    log_snapshot_sample lut (dbOverride.getD sessionDb) m = .ok 0 ∧
    log_transfer_sample lut sessionDb dbOverride m = .ok 0 := by
  constructor
  · unfold log_snapshot_sample
    rw [if_pos ⟨hd, hm⟩]
  · unfold log_transfer_sample
    by_cases h1 : 0 < sessionDb ∧ |m| < sessionDb
    · simp only [if_pos h1]
      rw [if_pos ⟨hd, by simpa using hd⟩]
    · simp only [if_neg h1]
      rw [if_pos ⟨hd, hm⟩]

theorem log_deadband_forces_zero_witness :
    0 < (Option.none : Option ℚ).getD 300 ∧ |(100 : ℚ)| < (Option.none : Option ℚ).getD 300 ∧
    (log_snapshot_sample none ((Option.none : Option ℚ).getD 300) 100 = .ok 0 ∧
      log_transfer_sample none 300 none 100 = .ok 0) :=
  ⟨by norm_num, by norm_num,
    log_deadband_forces_zero none 300 none 100 (by norm_num) (by norm_num)⟩

/-- C10: A freshly constructed session has an active Log deadband of exactly
300.0 mV (`get_log_deadband_mV` returns 300 until `set_log_deadband_mV` is
called), so out of the box the LOG snapshot path reports 0 W for every
sample whose corrected magnitude is below 300 mV, whatever the LUT. -/
theorem fresh_session_deadband_300 (fe : Frontend)
    (slope intercept : Fin 4 → Fin 8 → ℚ) (fz : Fin 4 → ℤ)
    (lut : Option (List ℚ × List ℚ)) (m : ℚ) (hm : |m| < 300) :
    get_log_deadband_mV (init_session fe slope intercept fz lut) = 300 ∧
    log_snapshot_sample lut
      (init_session fe slope intercept fz lut).log_deadband_mV m = .ok 0 := by
  constructor
  · rfl
  · unfold log_snapshot_sample init_session
    rw [if_pos ⟨by norm_num, hm⟩]

theorem fresh_session_deadband_300_witness :
    |(-299 : ℚ)| < 300 ∧
    (get_log_deadband_mV (init_session .log (fun _ _ => 0) (fun _ _ => 0)
        (fun _ => 0) none) = 300 ∧
      log_snapshot_sample none
        (init_session .log (fun _ _ => 0) (fun _ _ => 0) (fun _ => 0) none).log_deadband_mV
        (-299) = .ok 0) :=
  ⟨by norm_num,
    fresh_session_deadband_300 .log (fun _ _ => 0) (fun _ _ => 0) (fun _ => 0)
      none (-299) (by norm_num)⟩

/-! ### Autogain loop (`snapshot_W` LINEAR branch, lines 630-654) -/

/-- One channel's gain adjustment inside an autogain iteration
(lines 640-650): increment when `abs(mv) < min_mv` and the gain is below 7,
else decrement when `abs(mv) > max_mv` and the gain is above 0, else leave
unchanged (each taken branch issues `set_gain`, whose 0..7 argument check
is satisfied by construction here). -/
def agAdjust (minMv maxMv : ℚ) (mv : ℚ) (g : ℤ) : ℤ :=
  if |mv| < minMv ∧ g < 7 then g + 1
  else if maxMv < |mv| ∧ 0 < g then g - 1
  else g

/-- The `changed` flag of one iteration: some channel took an adjusting
branch, which is exactly "some channel's gain moved". -/
def agChanged (minMv maxMv : ℚ) (mv : Fin 4 → ℚ) (g : Fin 4 → ℤ) : Prop :=
  ∃ ch, agAdjust minMv maxMv (mv ch) (g ch) ≠ g ch

instance (minMv maxMv : ℚ) (mv : Fin 4 → ℚ) (g : Fin 4 → ℤ) :
    Decidable (agChanged minMv maxMv mv g) := by
  unfold agChanged
  infer_instance

/-- The autogain loop `for _ in range(max_iters)` (lines 631-654):
`mvs i` is the millivolt snapshot taken by iteration `i` (with the gains the
device reports alongside it, tracked in `g`); each iteration adjusts every
channel off the fresh reading and breaks when no channel changed.  Returns
(number of iterations executed, final gains). -/
def agRun (minMv maxMv : ℚ) (mvs : ℕ → Fin 4 → ℚ) :
    ℕ → ℕ → (Fin 4 → ℤ) → ℕ × (Fin 4 → ℤ)
  | 0, _, g => (0, g)
  | fuel + 1, i, g =>
    if agChanged minMv maxMv (mvs i) g then
      let r := agRun minMv maxMv mvs fuel (i + 1)
        (fun ch => agAdjust minMv maxMv (mvs i ch) (g ch))
      (r.1 + 1, r.2)
    else (1, g)

/-- Gain trajectory: gains after `n` adjustment rounds starting from reading
index `i`. -/
def agSeq (minMv maxMv : ℚ) (mvs : ℕ → Fin 4 → ℚ) (i : ℕ) (g : Fin 4 → ℤ) :
    ℕ → (Fin 4 → ℤ)
  | 0 => g
  | n + 1 => fun ch => agAdjust minMv maxMv (mvs (i + n) ch)
      (agSeq minMv maxMv mvs i g n ch)

theorem agAdjust_bounds (minMv maxMv mv : ℚ) (g : ℤ) (h0 : 0 ≤ g) (h7 : g ≤ 7) :
    0 ≤ agAdjust minMv maxMv mv g ∧ agAdjust minMv maxMv mv g ≤ 7 := by
  unfold agAdjust
  split_ifs with h1 h2 <;> omega

theorem agSeq_bounds (minMv maxMv : ℚ) (mvs : ℕ → Fin 4 → ℚ) (i : ℕ)
    (g : Fin 4 → ℤ) (hg : ∀ ch, 0 ≤ g ch ∧ g ch ≤ 7) :
    ∀ n ch, 0 ≤ agSeq minMv maxMv mvs i g n ch ∧ agSeq minMv maxMv mvs i g n ch ≤ 7 := by
  intro n
  induction n with
  | zero => exact hg
  | succ n ih =>
    intro ch
    exact agAdjust_bounds _ _ _ _ (ih ch).1 (ih ch).2

theorem agSeq_shift (minMv maxMv : ℚ) (mvs : ℕ → Fin 4 → ℚ) (i : ℕ)
    (g : Fin 4 → ℤ) :
    ∀ n, agSeq minMv maxMv mvs (i + 1)
        (fun ch => agAdjust minMv maxMv (mvs i ch) (g ch)) n
      = agSeq minMv maxMv mvs i g (n + 1) := by
  intro n
  induction n with
  | zero => rfl
  | succ n ih =>
    funext ch
    show agAdjust _ _ (mvs (i + 1 + n) ch) _ = agAdjust _ _ (mvs (i + (n + 1)) ch) _
    rw [ih]
    have : i + 1 + n = i + (n + 1) := by omega
    rw [this]

theorem agRun_pos (minMv maxMv : ℚ) (mvs : ℕ → Fin 4 → ℚ)
    (fuel i : ℕ) (g : Fin 4 → ℤ) (h : 0 < fuel) :
    0 < (agRun minMv maxMv mvs fuel i g).1 := by
  cases fuel with
  | zero => omega
  | succ fuel =>
    rw [agRun]
    split <;> simp

theorem agRun_spec (minMv maxMv : ℚ) (mvs : ℕ → Fin 4 → ℚ) :
    ∀ (fuel i : ℕ) (g : Fin 4 → ℤ),
    (agRun minMv maxMv mvs fuel i g).1 ≤ fuel ∧
    (agRun minMv maxMv mvs fuel i g).2
      = agSeq minMv maxMv mvs i g (agRun minMv maxMv mvs fuel i g).1 ∧
    (∀ m, m + 1 < (agRun minMv maxMv mvs fuel i g).1 →
      agChanged minMv maxMv (mvs (i + m)) (agSeq minMv maxMv mvs i g m)) ∧
    ((agRun minMv maxMv mvs fuel i g).1 < fuel →
      0 < (agRun minMv maxMv mvs fuel i g).1 ∧
      ¬ agChanged minMv maxMv (mvs (i + ((agRun minMv maxMv mvs fuel i g).1 - 1)))
        (agSeq minMv maxMv mvs i g ((agRun minMv maxMv mvs fuel i g).1 - 1))) := by
  intro fuel
  induction fuel with
  | zero =>
    intro i g
    refine ⟨le_refl 0, rfl, ?_, ?_⟩
    · intro m hm
      simp [agRun] at hm
    · intro h
      simp [agRun] at h
  | succ fuel ih =>
    intro i g
    by_cases hc : agChanged minMv maxMv (mvs i) g
    · have hred : agRun minMv maxMv mvs (fuel + 1) i g
          = ((agRun minMv maxMv mvs fuel (i + 1)
              (fun ch => agAdjust minMv maxMv (mvs i ch) (g ch))).1 + 1,
             (agRun minMv maxMv mvs fuel (i + 1)
              (fun ch => agAdjust minMv maxMv (mvs i ch) (g ch))).2) := by
        rw [agRun, if_pos hc]
      obtain ⟨ih1, ih2, ih3, ih4⟩ :=
        ih (i + 1) (fun ch => agAdjust minMv maxMv (mvs i ch) (g ch))
      rw [hred]
      refine ⟨by omega, ?_, ?_, ?_⟩
      · dsimp only
        rw [ih2, agSeq_shift]
      · intro m hm
        dsimp only at hm
        cases m with
        | zero => exact hc
        | succ m =>
          have := ih3 m (by omega)
          rw [agSeq_shift] at this
          have harg : i + 1 + m = i + (m + 1) := by omega
          rwa [harg] at this
      · intro hlt
        dsimp only at hlt ⊢
        set n' := (agRun minMv maxMv mvs fuel (i + 1)
            (fun ch => agAdjust minMv maxMv (mvs i ch) (g ch))).1 with hn'
        refine ⟨by omega, ?_⟩
        rcases Nat.eq_zero_or_pos n' with h0 | hpos
        · have hposrun := agRun_pos minMv maxMv mvs fuel (i + 1)
            (fun ch => agAdjust minMv maxMv (mvs i ch) (g ch)) (by omega)
          omega
        · have hn'lt : n' < fuel := by omega
          obtain ⟨hpos', hnc⟩ := ih4 hn'lt
          rw [agSeq_shift] at hnc
          have harg : i + 1 + (n' - 1) = i + (n' + 1 - 1) := by omega
          have harg2 : n' - 1 + 1 = n' + 1 - 1 := by omega
          rw [harg, harg2] at hnc
          exact hnc
    · have hred : agRun minMv maxMv mvs (fuel + 1) i g = (1, g) := by
        rw [agRun, if_neg hc]
      rw [hred]
      refine ⟨by omega, ?_, ?_, ?_⟩
      · have hfix : (fun ch => agAdjust minMv maxMv (mvs i ch) (g ch)) = g := by
          funext ch
          by_contra hne
          exact hc ⟨ch, hne⟩
        show g = agSeq minMv maxMv mvs i g 1
        calc g = fun ch => agAdjust minMv maxMv (mvs i ch) (g ch) := hfix.symm
          _ = agSeq minMv maxMv mvs i g 1 := rfl
      · intro m hm; omega
      · intro hlt
        refine ⟨Nat.one_pos, ?_⟩
        exact hc

/-- C4: For every starting gain vector with entries in [0,7] and every
sequence of snapshot readings, the autogain loop of `snapshot_W` executes at
most `max_iters` iterations, stops at the first iteration that makes no
adjustment (every earlier iteration changed some gain; if it stopped below
the budget, its last iteration changed nothing), every gain along the
trajectory stays in [0,7], and a single step increments exactly when the
reading is below the low threshold with gain < 7 and decrements exactly when
the reading is above the high threshold with gain > 0. -/
theorem autogain_bounded_and_converging (minMv maxMv : ℚ)
    (mvs : ℕ → Fin 4 → ℚ) (max_iters : ℕ) (g : Fin 4 → ℤ)
    (hg : ∀ ch, 0 ≤ g ch ∧ g ch ≤ 7) :
    (agRun minMv maxMv mvs max_iters 0 g).1 ≤ max_iters ∧
    (∀ n ch, 0 ≤ agSeq minMv maxMv mvs 0 g n ch ∧
      agSeq minMv maxMv mvs 0 g n ch ≤ 7) ∧
    (agRun minMv maxMv mvs max_iters 0 g).2
      = agSeq minMv maxMv mvs 0 g (agRun minMv maxMv mvs max_iters 0 g).1 ∧
    (∀ m, m + 1 < (agRun minMv maxMv mvs max_iters 0 g).1 →
      agChanged minMv maxMv (mvs m) (agSeq minMv maxMv mvs 0 g m)) ∧
    ((agRun minMv maxMv mvs max_iters 0 g).1 < max_iters →
      ¬ agChanged minMv maxMv (mvs ((agRun minMv maxMv mvs max_iters 0 g).1 - 1))
        (agSeq minMv maxMv mvs 0 g ((agRun minMv maxMv mvs max_iters 0 g).1 - 1))) ∧
    (∀ mv gg, 0 ≤ gg → gg ≤ 7 →
      ((agAdjust minMv maxMv mv gg = gg + 1 ↔ |mv| < minMv ∧ gg < 7) ∧
       (agAdjust minMv maxMv mv gg = gg - 1 ↔
         ¬ (|mv| < minMv ∧ gg < 7) ∧ maxMv < |mv| ∧ 0 < gg))) := by
  obtain ⟨h1, h2, h3, h4⟩ := agRun_spec minMv maxMv mvs max_iters 0 g
  have hmvshift : ∀ m, (0 : ℕ) + m = m := fun m => Nat.zero_add m
  refine ⟨h1, agSeq_bounds minMv maxMv mvs 0 g hg, h2, ?_, ?_, ?_⟩
  · intro m hm
    have := h3 m hm
    rwa [hmvshift] at this
  · intro hlt
    have := (h4 hlt).2
    rwa [hmvshift] at this
  · intro mv gg hg0 hg7
    constructor
    · constructor
      · intro he
        unfold agAdjust at he
        split_ifs at he with hc1 hc2 <;> [exact hc1; omega; omega]
      · intro hcond
        unfold agAdjust
        rw [if_pos hcond]
    · constructor
      · intro he
        unfold agAdjust at he
        split_ifs at he with hc1 hc2
        · omega
        · exact ⟨hc1, hc2⟩
        · omega
      · intro hcond
        unfold agAdjust
        rw [if_neg hcond.1, if_pos hcond.2]

theorem autogain_bounded_and_converging_witness :
    (∀ ch : Fin 4, 0 ≤ (fun _ : Fin 4 => (3 : ℤ)) ch ∧
      (fun _ : Fin 4 => (3 : ℤ)) ch ≤ 7) ∧
    (agRun 100 4700 (fun _ _ => 1000) 10 0 (fun _ => 3)).1 ≤ 10 :=
  ⟨fun _ => ⟨by norm_num, by norm_num⟩,
    (autogain_bounded_and_converging 100 4700 (fun _ _ => 1000) 10 (fun _ => 3)
      (fun _ => ⟨by norm_num, by norm_num⟩)).1⟩

/-! ### Frequency / oversampling coupling (`set_freq` lines 985-1003,
`_max_freq_for_os` lines 964-970, `_best_os_for_freq` lines 972-983) -/

/-- Maximum valid sampling frequency for an oversampling index (body of
`_max_freq_for_os`): 100000 for indices 0 and 1, halved per further index
(Python `//` on positive ints = ℕ division). -/
def max_freq_cap (os : ℕ) : ℕ :=
  if os ≤ 1 then 100000 else 100000 / 2 ^ (os - 1)

/-- `_max_freq_for_os` including its 0..7 argument check. -/
def max_freq_for_os (os : ℕ) : Except Err ℕ :=
  if 7 < os then .error .invalidArgument else .ok (max_freq_cap os)

/-- Loop body of `_best_os_for_freq` (lines 977-983): `best = 0`, then for
each index in order, keep overwriting `best` while the index still supports
`hz`, and break at the first index that does not. -/
def best_os_loop (hz : ℕ) : List ℕ → ℕ → ℕ
  | [], best => best
  | os :: rest, best =>
    if hz ≤ max_freq_cap os then best_os_loop hz rest os else best

/-- `_best_os_for_freq` with its argument checks. -/
def best_os_for_freq (hz : ℕ) : Except Err ℕ :=
  if hz = 0 then .error .invalidArgument
  else if 100000 < hz then .error .invalidArgument
  else .ok (best_os_loop hz (List.range 8) 0)

/-- `set_freq` (lines 985-1003) given the oversampling index the device
reports: range-check `hz`, (issue `FREQ`), and when `hz` exceeds the current
oversampling's cap, switch to `_best_os_for_freq hz` and warn (the returned
`Bool` is the `RuntimeWarning` signal). -/
def set_freq (hz cur_os : ℕ) : Except Err (ℕ × Bool) :=
  if hz = 0 ∨ 100000 < hz then .error .invalidArgument
  else if 7 < cur_os then .error .invalidArgument
  else if max_freq_cap cur_os < hz then
    (best_os_for_freq hz).map (fun nb => (nb, true))
  else .ok (cur_os, false)

/-- C5 counterexample: setting 10000 Hz at oversampling index 6 auto-adjusts
to index 4 (cap 12500 Hz) with a warning — not to index 1 as the claim's
scenario states. -/
theorem set_freq_scenario_counterexample :
    set_freq 10000 6 = .ok (4, true) ∧ ¬ set_freq 10000 6 = .ok (1, true) := by
  constructor
  · rfl
  · intro h
    rw [show set_freq 10000 6 = .ok (4, true) from rfl] at h
    simp at h

theorem best_os_loop_spec (hz : ℕ) (h1 : 1 ≤ hz) (h2 : hz ≤ 100000) :
    hz ≤ max_freq_cap (best_os_loop hz (List.range 8) 0) ∧
    ∀ os, os ≤ 7 → hz ≤ max_freq_cap os →
      os ≤ best_os_loop hz (List.range 8) 0 := by
  have e : List.range 8 = [0, 1, 2, 3, 4, 5, 6, 7] := rfl
  have c0 : max_freq_cap 0 = 100000 := rfl
  have c1 : max_freq_cap 1 = 100000 := rfl
  have c2 : max_freq_cap 2 = 50000 := rfl
  have c3 : max_freq_cap 3 = 25000 := rfl
  have c4 : max_freq_cap 4 = 12500 := rfl
  have c5 : max_freq_cap 5 = 6250 := rfl
  have c6 : max_freq_cap 6 = 3125 := rfl
  have c7 : max_freq_cap 7 = 1562 := rfl
  rw [e]
  simp only [best_os_loop, c0, c1, c2, c3, c4, c5, c6, c7]
  split_ifs <;>
    refine ⟨by simp only [c0, c1, c2, c3, c4, c5, c6, c7]; omega, ?_⟩ <;>
    (intro os hos hcap
     interval_cases os <;>
       simp only [c0, c1, c2, c3, c4, c5, c6, c7] at hcap ⊢ <;> omega)

/-- C5 amended: setting a frequency above the current oversampling's cap
auto-selects the HIGHEST (= most-oversampled, lowest-noise) index whose cap
still supports the requested frequency, raising a non-fatal warning; in the
scenario (10000 Hz at index 6, cap 3125) the result is index 4 (cap 12500),
not index 1. -/
theorem set_freq_selects_lowest_noise_os (hz cur_os : ℕ)
    (h1 : 1 ≤ hz) (h2 : hz ≤ 100000) (h3 : cur_os ≤ 7)
    (h4 : max_freq_cap cur_os < hz) :
    set_freq hz cur_os = .ok (best_os_loop hz (List.range 8) 0, true) ∧
    hz ≤ max_freq_cap (best_os_loop hz (List.range 8) 0) ∧
    (∀ os, os ≤ 7 → hz ≤ max_freq_cap os →
      os ≤ best_os_loop hz (List.range 8) 0) ∧
    set_freq 10000 6 = .ok (4, true) ∧
    max_freq_cap 6 = 3125 ∧ max_freq_cap 4 = 12500 := by
  obtain ⟨hb1, hb2⟩ := best_os_loop_spec hz h1 h2
  refine ⟨?_, hb1, hb2, rfl, rfl, rfl⟩
  unfold set_freq best_os_for_freq
  rw [if_neg (by omega : ¬ (hz = 0 ∨ 100000 < hz)), if_neg (by omega : ¬ 7 < cur_os),
    if_pos h4, if_neg (by omega : ¬ hz = 0), if_neg (by omega : ¬ 100000 < hz)]
  rfl

theorem set_freq_selects_lowest_noise_os_witness :
    (1 ≤ 10000 ∧ 10000 ≤ 100000 ∧ 6 ≤ 7 ∧ max_freq_cap 6 < 10000) ∧
    set_freq 10000 6 = .ok (best_os_loop 10000 (List.range 8) 0, true) :=
  ⟨⟨by norm_num, by norm_num, by norm_num, by decide⟩,
    (set_freq_selects_lowest_noise_os 10000 6 (by norm_num) (by norm_num)
      (by norm_num) (by decide)).1⟩

/-! ### Bulk transfer and decode (`transfer_frames_adc`, lines 785-834) -/

/-- One little-endian signed 16-bit sample from two wire bytes
(`array('h')` + `frombytes`, lines 821-824). -/
def decode16 (lo hi : ℕ) : ℤ :=
  if lo + 256 * hi < 32768 then (lo + 256 * hi : ℤ) else (lo + 256 * hi : ℤ) - 65536

/-- The flat `samples` array: consecutive byte pairs decoded as int16. -/
def toSamples : List ℕ → List ℤ
  | lo :: hi :: rest => decode16 lo hi :: toSamples rest
  | _ => []

/-- `samples[0::4] / [1::4] / [2::4] / [3::4]` (lines 826-829) for a sample
list whose length is a multiple of 4. -/
def deinterleave4 : List ℤ → List ℤ × List ℤ × List ℤ × List ℤ
  | a :: b :: c :: d :: rest =>
    let r := deinterleave4 rest
    (a :: r.1, b :: r.2.1, c :: r.2.2.1, d :: r.2.2.2)
  | _ => ([], [], [], [])

/-- `transfer_frames_adc(frames)`: reject `frames ≤ 0`; `bytes_needed =
frames * 4 * 2`; `XFER` must answer OK (`okResp`); the chunked read loop
raises a timeout ("ShortRead") when the wire stream runs out before
`bytes_needed` bytes arrived, else consumes exactly `bytes_needed` bytes;
decode + de-interleave; `DecodeMismatch` when `len(ch1) != frames`. -/
def transfer_frames_adc (frames : ℕ) (okResp : Bool) (stream : List ℕ) :
    Except Err (List (List ℤ)) :=
  if frames = 0 then .error .invalidArgument
  else if okResp = false then .error .protocolError
  else if stream.length < frames * 4 * 2 then .error .shortRead
  else
    let chs := deinterleave4 (toSamples (stream.take (frames * 4 * 2)))
    if chs.1.length ≠ frames then .error .decodeMismatch
    else .ok [chs.1, chs.2.1, chs.2.2.1, chs.2.2.2]

/-- Reference channel extraction: sample `i` of channel `c` is decoded from
wire bytes `2*(4*i+c)` and `2*(4*i+c)+1`. -/
def chanF (s : List ℕ) (c n : ℕ) : List ℤ :=
  (List.range n).map (fun i => decode16 (s.getD (2 * (4 * i + c)) 0) (s.getD (2 * (4 * i + c) + 1) 0))

theorem chanF_length (s : List ℕ) (c n : ℕ) : (chanF s c n).length = n := by
  simp [chanF]

theorem take_add_eight (b0 b1 b2 b3 b4 b5 b6 b7 : ℕ) (rest : List ℕ) (m : ℕ) :
    (b0 :: b1 :: b2 :: b3 :: b4 :: b5 :: b6 :: b7 :: rest).take (m + 8)
      = b0 :: b1 :: b2 :: b3 :: b4 :: b5 :: b6 :: b7 :: rest.take m := rfl

theorem getD_add_eight (b0 b1 b2 b3 b4 b5 b6 b7 : ℕ) (rest : List ℕ) (m : ℕ) :
    (b0 :: b1 :: b2 :: b3 :: b4 :: b5 :: b6 :: b7 :: rest).getD (m + 8) 0
      = rest.getD m 0 := rfl

theorem deinterleave4_take_spec (n : ℕ) :
    ∀ s : List ℕ, n * 8 ≤ s.length →
    deinterleave4 (toSamples (s.take (n * 8)))
      = (chanF s 0 n, chanF s 1 n, chanF s 2 n, chanF s 3 n) := by
  induction n with
  | zero =>
    intro s _
    simp [chanF, toSamples, deinterleave4]
  | succ n ih =>
    intro s hl
    rcases s with _ | ⟨b0, _ | ⟨b1, _ | ⟨b2, _ | ⟨b3, _ | ⟨b4, _ | ⟨b5, _ | ⟨b6, _ | ⟨b7, rest⟩⟩⟩⟩⟩⟩⟩⟩
    all_goals try (exfalso; simp only [List.length_nil, List.length_cons] at hl; omega)
    have hrest : n * 8 ≤ rest.length := by
      simp only [List.length_cons] at hl
      omega
    have harith : (n + 1) * 8 = n * 8 + 8 := by ring
    rw [harith, take_add_eight]
    show (decode16 b0 b1 :: (deinterleave4 (toSamples (rest.take (n * 8)))).1,
          decode16 b2 b3 :: (deinterleave4 (toSamples (rest.take (n * 8)))).2.1,
          decode16 b4 b5 :: (deinterleave4 (toSamples (rest.take (n * 8)))).2.2.1,
          decode16 b6 b7 :: (deinterleave4 (toSamples (rest.take (n * 8)))).2.2.2) = _
    rw [ih rest hrest]
    have hch : ∀ c : ℕ, c < 4 →
        chanF (b0 :: b1 :: b2 :: b3 :: b4 :: b5 :: b6 :: b7 :: rest) c (n + 1)
          = decode16 ((b0 :: b1 :: b2 :: b3 :: b4 :: b5 :: b6 :: b7 :: rest).getD (2 * c) 0)
              ((b0 :: b1 :: b2 :: b3 :: b4 :: b5 :: b6 :: b7 :: rest).getD (2 * c + 1) 0)
            :: chanF rest c n := by
      intro c _
      unfold chanF
      rw [List.range_succ_eq_map, List.map_cons, List.map_map]
      congr 1
      · norm_num
      · apply List.map_congr_left
        intro i _
        have e1 : 2 * (4 * (i + 1) + c) = 2 * (4 * i + c) + 8 := by ring
        have e2 : 2 * (4 * i + c) + 8 + 1 = (2 * (4 * i + c) + 1) + 8 := by ring
        show decode16 _ _ = _
        rw [e1, e2, getD_add_eight, getD_add_eight]
    rw [hch 0 (by norm_num), hch 1 (by norm_num), hch 2 (by norm_num), hch 3 (by norm_num)]
    rfl

/-- C6: for every `frames > 0` the bulk transfer needs exactly
`frames × 4 × 2` bytes: a shorter stream raises `ShortRead` with no partial
decode; a complete stream decodes to 4 sequences of length `frames` with
sample `i` of channel `c` taken little-endian from buffer element `i·4+c`
(wire bytes `2(4i+c)`, `2(4i+c)+1`), and the `DecodeMismatch` guard passes;
the 1000-frame / 3990-byte scenario raises `ShortRead`. -/
theorem transfer_frames_adc_spec (frames : ℕ) (stream : List ℕ) (hf : frames ≠ 0) :
    (stream.length < frames * 4 * 2 →
      transfer_frames_adc frames true stream = .error .shortRead) ∧
    (frames * 4 * 2 ≤ stream.length →
      transfer_frames_adc frames true stream
        = .ok [chanF stream 0 frames, chanF stream 1 frames,
               chanF stream 2 frames, chanF stream 3 frames] ∧
      (chanF stream 0 frames).length = frames ∧
      (chanF stream 1 frames).length = frames ∧
      (chanF stream 2 frames).length = frames ∧
      (chanF stream 3 frames).length = frames) ∧
    transfer_frames_adc 1000 true (List.replicate 3990 0) = .error .shortRead := by
  refine ⟨?_, ?_, ?_⟩
  · intro hshort
    unfold transfer_frames_adc
    rw [if_neg hf, if_neg (by simp), if_pos hshort]
  · intro hlong
    have h8 : frames * 8 ≤ stream.length := by omega
    have hdec := deinterleave4_take_spec frames stream h8
    have harith : frames * 4 * 2 = frames * 8 := by ring
    refine ⟨?_, chanF_length _ _ _, chanF_length _ _ _, chanF_length _ _ _, chanF_length _ _ _⟩
    unfold transfer_frames_adc
    rw [if_neg hf, if_neg (by simp), if_neg (not_lt.mpr hlong)]
    rw [harith, hdec]
    rw [if_neg (by simp [chanF_length])]
  · unfold transfer_frames_adc
    rw [if_neg (by norm_num), if_neg (by simp),
      if_pos (by rw [List.length_replicate]; norm_num)]

theorem transfer_frames_adc_spec_witness :
    (1000 : ℕ) ≠ 0 ∧
    transfer_frames_adc 1000 true (List.replicate 3990 0) = .error .shortRead :=
  ⟨by norm_num,
    (transfer_frames_adc_spec 1000 (List.replicate 3990 0) (by norm_num)).2.2⟩

/-! ### Snapshot / transfer conversion pipeline (C7) -/

/-- `_apply_linear_zero_ch` (lines 329-336): LINEAR subtracts the active
per-channel zeros, LOG passes through. -/
def apply_linear_zero_ch (S : Session) (codes : Fin 4 → ℤ) : Fin 4 → ℤ :=
  if S.frontend = .linear then fun i => codes i - S.linear_zero_adc i else codes

/-- `snapshot_mV` (lines 568-580): snapshot codes → zero subtraction →
millivolts → `round(x, 3)`; the legacy `use_zero` parameter is accepted and
ignored (line 573). -/
def snapshot_mV (S : Session) (codes : Fin 4 → ℤ) ( use_zero : Option Bool) :
    Fin 4 → ℚ :=
  fun ch => roundTo ((apply_linear_zero_ch S codes ch : ℚ) * lsb_mV) 3

/-- `snapshot_volts` (lines 556-566): same without rounding, in volts. -/
def snapshot_volts (S : Session) (codes : Fin 4 → ℤ) ( use_zero : Option Bool) :
    Fin 4 → ℚ :=
  fun ch => (apply_linear_zero_ch S codes ch : ℚ) * ADC_LSB_VOLTS

/-- Sequence four per-channel fallible results (the Python loops raise at
the first failing channel; only the error/ok split is observable here). -/
def seq4 {α : Type} (a b c d : Except Err α) : Except Err (Fin 4 → α) := do
  let x ← a
  let y ← b
  let z ← c
  let w ← d
  pure ![x, y, z, w]

/-- `snapshot_W` (lines 583-690) without the autogain loop (modelled
separately as `agRun`): the final snapshot's codes and gains are inputs.
Both branches call `snapshot_mV(..., use_zero=None)` (lines 615, 657);
the outer `use_zero` is accepted and ignored (line 588). -/
noncomputable def snapshot_W (S : Session) (codes : Fin 4 → ℤ)
    (gains : Fin 4 → Fin 8) ( use_zero : Option Bool) (log_deadband : Option ℚ) :
    Except Err (Fin 4 → ℝ) :=
  if S.frontend = .log then
    seq4 (log_snapshot_sample S.loglut (log_deadband.getD S.log_deadband_mV)
            (snapshot_mV S codes none 0))
         (log_snapshot_sample S.loglut (log_deadband.getD S.log_deadband_mV)
            (snapshot_mV S codes none 1))
         (log_snapshot_sample S.loglut (log_deadband.getD S.log_deadband_mV)
            (snapshot_mV S codes none 2))
         (log_snapshot_sample S.loglut (log_deadband.getD S.log_deadband_mV)
            (snapshot_mV S codes none 3))
  else
    (seq4 (convert_sample_W (S.cal_slope 0 (gains 0)) (S.cal_intercept 0 (gains 0))
             S.mv_zero_threshold (snapshot_mV S codes none 0))
          (convert_sample_W (S.cal_slope 1 (gains 1)) (S.cal_intercept 1 (gains 1))
             S.mv_zero_threshold (snapshot_mV S codes none 1))
          (convert_sample_W (S.cal_slope 2 (gains 2)) (S.cal_intercept 2 (gains 2))
             S.mv_zero_threshold (snapshot_mV S codes none 2))
          (convert_sample_W (S.cal_slope 3 (gains 3)) (S.cal_intercept 3 (gains 3))
             S.mv_zero_threshold (snapshot_mV S codes none 3))).map
      (fun f ch => ((f ch : ℚ) : ℝ))

/-- `transfer_frames_mV` (lines 840-868): LINEAR always subtracts the active
per-channel zeros before scaling (lines 850-855); LOG applies the effective
deadband to each scaled sample; `use_zero` accepted and ignored (line 843). -/
def transfer_frames_mV (S : Session) (ch : Fin 4 → List ℤ)
    ( use_zero : Option Bool) (log_deadband : Option ℚ) : Fin 4 → List ℚ :=
  if S.frontend = .linear then
    fun i => (ch i).map (fun code => ((code - S.linear_zero_adc i : ℤ) : ℚ) * lsb_mV)
  else
    fun i => (ch i).map (fun code =>
      if 0 < log_deadband.getD S.log_deadband_mV ∧
          |(code : ℚ) * lsb_mV| < log_deadband.getD S.log_deadband_mV
      then 0 else (code : ℚ) * lsb_mV)

/-- `transfer_frames_volts` (lines 870-872): `transfer_frames_mV` (passing
`use_zero` through unused, no deadband override) divided by 1000. -/
def transfer_frames_volts (S : Session) (ch : Fin 4 → List ℤ)
    ( use_zero : Option Bool) : Fin 4 → List ℚ :=
  fun i => (transfer_frames_mV S ch use_zero none i).map (fun x => x / 1000)

/-- Fail at the first failing element, else collect (the Python loop raises
out of the list comprehension). -/
def listExcept {α : Type} : List (Except Err α) → Except Err (List α)
  | [] => .ok []
  | x :: rest => do
    let a ← x
    let as ← listExcept rest
    pure (a :: as)

/-- `transfer_frames_W` (lines 874-944): LINEAR converts
`transfer_frames_mV(..., use_zero=None)` per channel with the slope guard,
the threshold short-circuit and LSB-derived rounding; LOG converts
`transfer_frames_volts(..., use_zero=None)` per sample through the deadband
re-check (`mv_equiv = v * 1e3`) and the LUT; the outer `use_zero` is
accepted and ignored (line 877). -/
noncomputable def transfer_frames_W (S : Session) (ch : Fin 4 → List ℤ)
    (gains : Fin 4 → Fin 8) ( use_zero : Option Bool) (log_deadband : Option ℚ) :
    Except Err (Fin 4 → List ℝ) :=
  if S.frontend = .linear then
    let mv := transfer_frames_mV S ch none none
    let conv := fun (i : Fin 4) =>
      if S.cal_slope i (gains i) = 0 then Except.error Err.invalidCalibration
      else Except.ok ((mv i).map (fun m =>
        (((if |m| < S.mv_zero_threshold then (0 : ℚ)
           else convert_value_W (S.cal_slope i (gains i)) (S.cal_intercept i (gains i)) m) : ℚ) : ℝ)))
    seq4 (conv 0) (conv 1) (conv 2) (conv 3)
  else
    let vch := transfer_frames_volts S ch none
    let conv := fun (i : Fin 4) =>
      listExcept ((vch i).map (fun v =>
        if 0 < log_deadband.getD S.log_deadband_mV ∧
            |v * 1000| < log_deadband.getD S.log_deadband_mV
        then Except.ok (0 : ℝ)
        else
          match S.loglut with
          | none => Except.error Err.lutNotLoaded
          | some (xs, ys) => Except.ok (interpPowerW xs ys v)))
    seq4 (conv 0) (conv 1) (conv 2) (conv 3)

/-- C7: On the Linear frontend, every snapshot and transfer conversion to
millivolts, volts or watts subtracts the active per-channel zero before
scaling, unconditionally; the legacy `use_zero` parameter has no effect —
for any two values of it (None/True/False), with the same raw codes and
session state, the returned values are identical. -/
theorem use_zero_ignored_and_zero_always_subtracted (S : Session)
    (hf : S.frontend = .linear) (codes : Fin 4 → ℤ) (ch : Fin 4 → List ℤ)
    (gains : Fin 4 → Fin 8) (db : Option ℚ) (uz1 uz2 : Option Bool) :
    snapshot_mV S codes uz1 = snapshot_mV S codes uz2 ∧
    snapshot_volts S codes uz1 = snapshot_volts S codes uz2 ∧
    snapshot_W S codes gains uz1 db = snapshot_W S codes gains uz2 db ∧
    transfer_frames_mV S ch uz1 db = transfer_frames_mV S ch uz2 db ∧
    transfer_frames_volts S ch uz1 = transfer_frames_volts S ch uz2 ∧
    transfer_frames_W S ch gains uz1 db = transfer_frames_W S ch gains uz2 db ∧
    (∀ i, snapshot_mV S codes uz1 i
      = roundTo (((codes i - S.linear_zero_adc i : ℤ) : ℚ) * lsb_mV) 3) ∧
    (∀ i, snapshot_volts S codes uz1 i
      = ((codes i - S.linear_zero_adc i : ℤ) : ℚ) * ADC_LSB_VOLTS) ∧
    (∀ i, transfer_frames_mV S ch uz1 db i
      = (ch i).map (fun code => ((code - S.linear_zero_adc i : ℤ) : ℚ) * lsb_mV)) := by
  refine ⟨rfl, rfl, rfl, rfl, rfl, rfl, ?_, ?_, ?_⟩
  · intro i
    simp [snapshot_mV, apply_linear_zero_ch, hf]
  · intro i
    simp [snapshot_volts, apply_linear_zero_ch, hf]
  · intro i
    simp [transfer_frames_mV, hf]

theorem use_zero_ignored_witness :
    (init_session .linear (fun _ _ => 1) (fun _ _ => 0) (fun _ => 5) none).frontend
        = .linear ∧
    snapshot_mV (init_session .linear (fun _ _ => 1) (fun _ _ => 0) (fun _ => 5) none)
        (fun _ => 100) (some true)
      = snapshot_mV (init_session .linear (fun _ _ => 1) (fun _ _ => 0) (fun _ => 5) none)
        (fun _ => 100) none :=
  ⟨rfl,
    (use_zero_ignored_and_zero_always_subtracted
      (init_session .linear (fun _ _ => 1) (fun _ _ => 0) (fun _ => 5) none) rfl
      (fun _ => 100) (fun _ => []) (fun _ => 0) none (some true) none).1⟩

/-! ### Frontend gating (C8) -/

/-- `_require_frontend` (lines 185-189): raises a `CoreDAQError` whose
message names the feature, the actual frontend and the expected one. -/
def require_frontend (S : Session) (expected : Frontend) (feature : String) :
    Except Err Unit :=
  if S.frontend ≠ expected then .error (.featureUnsupported feature expected S.frontend)
  else .ok ()

/-- `set_gain` (lines 693-704): frontend gate first, then head / gain-value
range checks, then the `GAIN` command. -/
def set_gain (S : Session) (head value : ℤ) : Except Err Unit := do
  let _ ← require_frontend S .linear "set_gain"
  if head < 1 ∨ 4 < head then .error .invalidArgument
  else if value < 0 ∨ 7 < value then .error .invalidArgument
  else .ok ()

/-- `set_soft_zero_adc` (lines 287-294): on a non-LINEAR session it silently
returns without touching the state (no `_require_frontend`). -/
def set_soft_zero_adc (S : Session) (z1 z2 z3 z4 : ℤ) : Except Err Session :=
  if S.frontend ≠ .linear then .ok S
  else .ok { S with linear_zero_adc := ![z1, z2, z3, z4] }

/-- `restore_factory_zero` (lines 296-311): silent no-op off-LINEAR; if the
factory zeros are still [0,0,0,0], best-effort reload from the device
(`deviceResp`), swallowing failure and falling through to copying
factory → active. -/
def restore_factory_zero (S : Session) (deviceResp : Except Err (Fin 4 → ℤ)) :
    Except Err Session :=
  if S.frontend ≠ .linear then .ok S
  else if ∀ i, S.factory_zero_adc i = 0 then
    match deviceResp with
    | .ok z => .ok { S with factory_zero_adc := z, linear_zero_adc := z }
    | .error _ => .ok { S with linear_zero_adc := S.factory_zero_adc }
  else .ok { S with linear_zero_adc := S.factory_zero_adc }

/-- `refresh_factory_zeros` (lines 261-268): silently returns (0,0,0,0) on a
non-LINEAR session; else re-queries `FACTORY_ZEROS?` and sets factory and
active zeros (propagating failure). -/
def refresh_factory_zeros (S : Session) (deviceResp : Except Err (Fin 4 → ℤ)) :
    Except Err (Session × (Fin 4 → ℤ)) :=
  if S.frontend ≠ .linear then .ok (S, fun _ => 0)
  else
    match deviceResp with
    | .ok z => .ok ({ S with factory_zero_adc := z, linear_zero_adc := z }, z)
    | .error e => .error e

/-- A concrete Log-frontend session used for the C8 statements. -/
def logSessionEx : Session :=
  init_session .log (fun _ _ => 0) (fun _ _ => 0) (fun _ => 0) none

/-- C8 counterexample: on a Log-frontend session the zero-offset operations
do NOT raise — they return successfully with the session unchanged
(`set_soft_zero_adc` and `restore_factory_zero` silently return,
`refresh_factory_zeros` silently returns (0,0,0,0)). -/
theorem zero_ops_silent_on_log_counterexample :
    set_soft_zero_adc logSessionEx 1 2 3 4 = .ok logSessionEx ∧
    restore_factory_zero logSessionEx (.error .deviceTimeout) = .ok logSessionEx ∧
    refresh_factory_zeros logSessionEx (.error .deviceTimeout)
      = .ok (logSessionEx, fun _ => 0) := by
  refine ⟨?_, ?_, ?_⟩ <;> rfl

/-- C8 amended: operations gated through `_require_frontend` (e.g.
`set_gain`) raise a `FeatureUnsupported` error naming the feature, the
required frontend and the actual one; but the zero-offset operations
`set_soft_zero_adc`, `restore_factory_zero` and `refresh_factory_zeros` are
not gated: invoked on a Log-frontend session they return silently without
raising and without changing the session. -/
theorem frontend_gating (S : Session) (hlog : S.frontend = .log)
    (feature : String) (head value z1 z2 z3 z4 : ℤ)
    (resp : Except Err (Fin 4 → ℤ)) :
    require_frontend S .linear feature
      = .error (.featureUnsupported feature .linear .log) ∧
    set_gain S head value = .error (.featureUnsupported "set_gain" .linear .log) ∧
    set_soft_zero_adc S z1 z2 z3 z4 = .ok S ∧
    restore_factory_zero S resp = .ok S ∧
    refresh_factory_zeros S resp = .ok (S, fun _ => 0) := by
  have hne : S.frontend ≠ .linear := by rw [hlog]; intro h; cases h
  refine ⟨?_, ?_, ?_, ?_, ?_⟩
  · unfold require_frontend
    rw [if_pos hne, hlog]
  · unfold set_gain require_frontend
    rw [if_pos hne, hlog]
    rfl
  · unfold set_soft_zero_adc
    rw [if_pos hne]
  · unfold restore_factory_zero
    rw [if_pos hne]
  · unfold refresh_factory_zeros
    rw [if_pos hne]

theorem frontend_gating_witness :
    logSessionEx.frontend = .log ∧
    set_gain logSessionEx 1 3 = .error (.featureUnsupported "set_gain" .linear .log) :=
  ⟨rfl,
    (frontend_gating logSessionEx rfl "f" 1 3 0 0 0 0 (.error .deviceTimeout)).2.1⟩

end CoreDAQ
